import Mathlib

/-!
Verification of the CommanderPlayCalculator repository (CommanderRampV001.py,
CommanderRampV003.py, CommanderRampV004.py) against its specification.

Python dicts mapping color symbols to integer amounts are embedded as
association lists `List (String × Nat)` with dict semantics: assignment
updates the first matching key in place, or appends a fresh key at the end
(Python ≥ 3.7 insertion order), so lists built from the empty dict have
unique keys.  All card costs and mana amounts in the programs are
non-negative integers, so `Nat` is used; Python's `max(0, a - r)` on
non-negative integers coincides with `Nat` truncated subtraction.
-/

/-- A Python dict from color symbol to amount, as an association list. -/
abbrev Mana := List (String × Nat)

/-- Python `d.get(c, 0)`: first value stored under key `c`, or 0. -/
def getD (m : Mana) (c : String) : Nat :=
  match m.find? (fun p => p.1 == c) with
  | some p => p.2
  | none => 0

/-- Python `d[c] = d.get(c, 0) + a`: add `a` under key `c`, updating the
first occurrence in place or appending a new key at the end. -/
def bump : Mana → String → Nat → Mana
  | [], c, a => [(c, a)]
  | p :: rest, c, a =>
      if p.1 == c then (p.1, p.2 + a) :: rest else p :: bump rest c a

/-- Fold a mana mapping `m` into an accumulator dict `acc`, entry by entry,
in insertion order: `for color, amount in m.items(): acc[color] += amount`. -/
def addMana (acc : Mana) (m : Mana) : Mana :=
  m.foldl (fun t p => bump t p.1 p.2) acc

/-- Python `sum(d.values())`. -/
def sumVals (m : Mana) : Nat :=
  (m.map (fun p => p.2)).sum

/-!
## CommanderRampV003.py — card model

`Card.__init__` (lines 22-31) stores name, ctype (a string tag: "land",
"rock", "dork", "reducer", "filler"), cost, mana dict, enters_tapped flag,
summoning_sick flag and cost_reduction dict.  The class-level
`enters_tapped_condition` / `tapped` / `subtypes` attributes are dead in
V003's game loop: `Game.play_land` (line 90) appends the card directly and
never calls `enters_battlefield`, and `can_produce_mana` reads only
`enters_tapped`; they are therefore omitted from the embedding.
-/

structure Card where
  name : String
  ctype : String
  cost : Nat
  mana : Mana
  enters_tapped : Bool
  summoning_sick : Bool
  cost_reduction : Mana
deriving DecidableEq

/-- `Card.can_produce_mana` (V003 lines 42-50). -/
def can_produce_mana (c : Card) (turn_played current_turn : Nat) : Bool :=
  if c.ctype == "land" then
    !(c.enters_tapped && turn_played == current_turn)
  else if c.ctype == "rock" then
    true
  else if c.ctype == "dork" then
    decide (turn_played < current_turn)
  else
    false

/-- `Card.produce_mana` (V003 lines 52-54). -/
def produce_mana (c : Card) : Mana := c.mana

/-!
## CommanderRampV003.py — game state and turn mechanics

`Game.__init__` (lines 78-84) copies the deck, shuffles it (the shuffle is
injected here: the functions below receive the already-shuffled list), then
deals a 7-card hand by popping seven times from the END of the list
(`self.deck.pop()`), so the hand is the last seven cards in reverse order.
The battlefield is a list of (card, turn-entered) pairs.

Python list removal (`self.hand.remove(card)`) removes the first element
equal to the card found by the scan; the scan stops at the first matching
card and every earlier hand card fails the scan's predicate, so under
structural equality this is exactly "remove the first card satisfying the
predicate", which `extractFirst` implements.
-/

structure GState where
  turn : Nat
  deck : List Card
  hand : List Card
  battlefield : List (Card × Nat)
  lands_played : Nat
deriving DecidableEq

/-- `Game.__init__` body after the shuffle (V003 lines 79-84): deal seven
cards from the end of the shuffled list into the hand. -/
def mkGame (shuffled : List Card) : GState :=
  { turn := 0
    deck := (shuffled.reverse.drop 7).reverse
    hand := shuffled.reverse.take 7
    battlefield := []
    lands_played := 0 }

/-- `Game.__init__` as run by Python (V003 lines 78-84): popping from an
exhausted list while dealing the opening hand raises IndexError, so a deck
of fewer than seven cards fails with an index fault, not a configuration
error.  Fallible code is embedded as `Except`. -/
def initV3 (shuffled : List Card) : Except String GState :=
  if shuffled.length < 7 then Except.error "IndexError: pop from empty list"
  else Except.ok (mkGame shuffled)

/-- `Game.draw` (V003 lines 86-88): pop from the end of the library into
the hand; no-op when the library is empty. -/
def draw (g : GState) : GState :=
  match g.deck.getLast? with
  | none => g
  | some c => { g with deck := g.deck.dropLast, hand := g.hand ++ [c] }

/-- Remove the first list element satisfying `p`, returning it and the
remaining list. -/
def extractFirst (p : Card → Bool) : List Card → Option (Card × List Card)
  | [] => none
  | c :: rest =>
      if p c then some (c, rest)
      else
        match extractFirst p rest with
        | none => none
        | some pr => some (pr.1, c :: pr.2)

/-- `Game.play_land` (V003 lines 90-98): if no land was played this turn,
move the first land in hand order to the battlefield, recording the current
turn.  The Boolean return value is unused by the turn loop and dropped. -/
def play_land (g : GState) : GState :=
  if g.lands_played == 0 then
    match extractFirst (fun c => c.ctype == "land") g.hand with
    | none => g
    | some (c, rest) =>
        { g with hand := rest
                 battlefield := g.battlefield ++ [(c, g.turn)]
                 lands_played := 1 }
  else g

/-- `Game.available_mana` (V003 lines 100-106): sum `produce_mana` over the
battlefield permanents whose `can_produce_mana` is true this turn. -/
def available_mana (g : GState) : Mana :=
  g.battlefield.foldl
    (fun total p =>
      if can_produce_mana p.1 p.2 g.turn then addMana total (produce_mana p.1)
      else total)
    []

/-- `Game.can_pay_cost` (V003 lines 121-123). -/
def can_pay_cost (g : GState) (cost : Nat) : Bool :=
  decide (cost ≤ sumVals (available_mana g))

/-- One scan of `Game.play_permanents`' inner for-loop (V003 lines
113-119): the first hand card that is a rock, dork or reducer and whose
cost is affordable right now. -/
def findDeploy (g : GState) : List Card → Option (Card × List Card)
  | [] => none
  | c :: rest =>
      if (c.ctype == "rock" || c.ctype == "dork" || c.ctype == "reducer")
          && can_pay_cost g c.cost then
        some (c, rest)
      else
        match findDeploy g rest with
        | none => none
        | some pr => some (pr.1, c :: pr.2)

/-- The `while played` fixed-point loop of `Game.play_permanents` (V003
lines 108-119), fuelled; each productive pass moves one card from hand to
battlefield, so `hand.length` fuel always reaches the fixed point
(proved in the C6 theorem). -/
def play_permanents_go : Nat → GState → GState
  | 0, g => g
  | fuel + 1, g =>
      match findDeploy g g.hand with
      | none => g
      | some (c, rest) =>
          play_permanents_go fuel
            { g with hand := rest
                     battlefield := g.battlefield ++ [(c, g.turn)] }

/-- `Game.play_permanents` (V003 lines 108-119). -/
def play_permanents (g : GState) : GState :=
  play_permanents_go g.hand.length g

/-- `Game.can_cast_commander` (V003 lines 125-147): sum the
`cost_reduction` dicts of every battlefield card, clamp-subtract them from
the commander cost color-wise, then require (c) each non-colorless color of
the effective cost to be covered by mana of that exact color and (d) the
total mana to cover the total effective cost. -/
def can_cast_commander (g : GState) (commander_cost : Mana) : Bool :=
  let reductions :=
    g.battlefield.foldl (fun acc p => addMana acc p.1.cost_reduction) []
  let effective_cost :=
    commander_cost.map (fun p => (p.1, p.2 - getD reductions p.1))
  let mana_pool := available_mana g
  (effective_cost.all (fun p =>
      p.1 == "colorless" || decide (getD effective_cost p.1 ≤ getD mana_pool p.1)))
    && decide (sumVals effective_cost ≤ sumVals mana_pool)

/-- One iteration body of `Game.play_until_commander` (V003 lines
150-157): bump the turn counter, reset the land drop, draw, drop a land,
deploy greedily. -/
def turn_step (g : GState) : GState :=
  play_permanents (play_land (draw { g with turn := g.turn + 1, lands_played := 0 }))

/-- The `while self.turn < max_turns` loop of `Game.play_until_commander`
(V003 lines 149-158), fuelled; the turn counter rises by one per
iteration, so `max_turns - turn` fuel always suffices (proved in the C6
theorem). -/
def play_until_go (cc : Mana) (max_turns : Nat) : Nat → GState → Option Nat
  | 0, _ => none
  | fuel + 1, g =>
      if g.turn < max_turns then
        let g2 := turn_step g
        if can_cast_commander g2 cc then some g2.turn
        else play_until_go cc max_turns fuel g2
      else none

/-- `Game.play_until_commander` (V003 lines 149-158). -/
def play_until_commander (g : GState) (cc : Mana) (max_turns : Nat) : Option Nat :=
  play_until_go cc max_turns (max_turns - g.turn) g

/-- Iterate `turn_step`, giving the zone state at successive turn
boundaries of a trial. -/
def run_turns : Nat → GState → GState
  | 0, g => g
  | n + 1, g => run_turns n (turn_step g)

/-- `run_simulation` (V003 lines 164-173) with the randomness injected as
one pre-shuffled deck per trial and `max_turns` exposed as a parameter (the
source calls `play_until_commander` with its default, 20).  Python's
`if turn_cast:` keeps a result when it is neither `None` nor `0`; the
`Counter` over the kept results is queried through `List.count`, and the
average is `None`-guarded exactly as on line 172. -/
def run_simulation_v3 (shuffles : List (List Card)) (cc : Mana) (max_turns : Nat) :
    List Nat × Option Rat × Nat :=
  let results := shuffles.foldl
    (fun acc s =>
      match play_until_commander (mkGame s) cc max_turns with
      | some t => if t == 0 then acc else acc ++ [t]
      | none => acc)
    []
  (results,
   if results.length == 0 then none
   else some ((results.sum : Rat) / (results.length : Rat)),
   results.length)

/-!
## Specification-side affordability check (for claim C1)

The following definitions transcribe the SPECIFICATION's words for the
commander affordability check, to be compared with the source-derived
`can_cast_commander` above.  The one difference in wording: the spec sums
the cost-reduction mappings "of battlefield CostReducers", while the code
folds the `cost_reduction` dict of every battlefield card.
-/

/-- Spec wording: the aggregate of the cost-reduction mappings of the
battlefield CostReducer permanents. -/
def reducerReductions (bf : List (Card × Nat)) : Mana :=
  (bf.filter (fun p => p.1.ctype == "reducer")).foldl
    (fun acc p => addMana acc p.1.cost_reduction) []

/-- Spec wording: the commander cost after subtracting the reducer
aggregate color-wise, each entry clamped at zero, colors the reduction
does not target left untouched. -/
def specEffectiveCost (bf : List (Card × Nat)) (cc : Mana) : Mana :=
  cc.map (fun p => (p.1, p.2 - getD (reducerReductions bf) p.1))

/-- Spec wording of the affordability predicate: (c) every color of the
effective cost other than the colorless symbol is covered by available
mana of that exact color, and (d) the total available mana covers the
total effective cost. -/
def specCanCast (g : GState) (cc : Mana) : Prop :=
  (∀ p ∈ specEffectiveCost g.battlefield cc, p.1 ≠ "colorless" →
      getD (specEffectiveCost g.battlefield cc) p.1 ≤ getD (available_mana g) p.1)
  ∧ sumVals (specEffectiveCost g.battlefield cc) ≤ sumVals (available_mana g)

/-- Folding cost reductions over the whole battlefield equals folding them
over the CostReducers alone, provided every non-reducer card carries an
empty cost-reduction dict (as every card built by the program does). -/
theorem reductions_fold_eq (bf : List (Card × Nat)) (acc : Mana)
    (h : ∀ p ∈ bf, p.1.ctype ≠ "reducer" → p.1.cost_reduction = []) :
    bf.foldl (fun a p => addMana a p.1.cost_reduction) acc
      = (bf.filter (fun p => p.1.ctype == "reducer")).foldl
          (fun a p => addMana a p.1.cost_reduction) acc := by
  induction bf generalizing acc with
  | nil => rfl
  | cons p rest ih =>
      by_cases hp : p.1.ctype = "reducer"
      · have hf : (p.1.ctype == "reducer") = true := by
          simp [hp]
        simp only [List.foldl_cons, List.filter_cons, hf]
        exact ih _ (fun q hq => h q (List.mem_cons_of_mem _ hq))
      · have hf : (p.1.ctype == "reducer") = false := by
          simp [hp]
        have hred : p.1.cost_reduction = [] :=
          h p (List.mem_cons_self _ _) hp
        simp only [List.foldl_cons, List.filter_cons, hf, hred]
        have : addMana acc ([] : Mana) = acc := rfl
        rw [this]
        exact ih _ (fun q hq => h q (List.mem_cons_of_mem _ hq))

/-- C1: canCastCommander returns true if and only if, after subtracting
the summed battlefield CostReducer reductions from the commander cost with
each entry clamped at zero, (c) every non-colorless color of the effective
cost is covered by available mana of that exact color, and (d) the total
available mana covers the total effective cost.  The hypothesis records
the program's card model: only CostReducer cards carry a non-empty
cost-reduction mapping. -/
theorem c1_can_cast_commander (g : GState) (cc : Mana)
    (h : ∀ p ∈ g.battlefield, p.1.ctype ≠ "reducer" → p.1.cost_reduction = []) :
    can_cast_commander g cc = true ↔ specCanCast g cc := by
  unfold can_cast_commander specCanCast specEffectiveCost reducerReductions
  rw [reductions_fold_eq g.battlefield [] h]
  simp only [Bool.and_eq_true, List.all_eq_true, Bool.or_eq_true,
    decide_eq_true_eq, beq_iff_eq]
  constructor
  · rintro ⟨hc, hd⟩
    refine ⟨?_, hd⟩
    intro p hp hne
    rcases hc p hp with hcol | hle
    · exact absurd hcol hne
    · exact hle
  · rintro ⟨hc, hd⟩
    refine ⟨?_, hd⟩
    intro p hp
    by_cases hcol : p.1 = "colorless"
    · exact Or.inl hcol
    · exact Or.inr (hc p hp hcol)

/-- A basic Swamp from the example deck of CommanderRampV003.py. -/
def swampCard : Card :=
  { name := "Swamp", ctype := "land", cost := 0, mana := [("black", 1)],
    enters_tapped := false, summoning_sick := false, cost_reduction := [] }

/-- Jet Medallion, the black cost reducer from the example deck of
CommanderRampV003.py. -/
def jetMedallion : Card :=
  { name := "Jet Medallion", ctype := "reducer", cost := 2, mana := [],
    enters_tapped := false, summoning_sick := false,
    cost_reduction := [("black", 1)] }

/-- C1 witness: on a battlefield of two Swamps and a Jet Medallion, the
theorem turns the evaluated `can_cast_commander` into the spec predicate
for the cost of one colorless and two black. -/
theorem c1_can_cast_commander_witness :
    specCanCast
      { turn := 2, deck := [], hand := [],
        battlefield := [(swampCard, 1), (swampCard, 2), (jetMedallion, 2)],
        lands_played := 1 }
      [("colorless", 1), ("black", 2)] :=
  (c1_can_cast_commander
      { turn := 2, deck := [], hand := [],
        battlefield := [(swampCard, 1), (swampCard, 2), (jetMedallion, 2)],
        lands_played := 1 }
      [("colorless", 1), ("black", 2)]
      (by decide)).mp (by decide)

/-- C2: canProduceMana is false for a Land only when it entered tapped and
turnEntered equals currentTurn; always true for a ManaRock; true for a
ManaDork only when currentTurn is strictly greater than turnEntered; and
false for CostReducer and Filler in every state. -/
theorem c2_can_produce_mana (c : Card) (tp ct : Nat) :
    (c.ctype = "land" →
      (can_produce_mana c tp ct = false ↔ c.enters_tapped = true ∧ tp = ct))
    ∧ (c.ctype = "rock" → can_produce_mana c tp ct = true)
    ∧ (c.ctype = "dork" → (can_produce_mana c tp ct = true ↔ tp < ct))
    ∧ (c.ctype = "reducer" ∨ c.ctype = "filler" →
        can_produce_mana c tp ct = false) := by
  refine ⟨?_, ?_, ?_, ?_⟩
  · intro h
    simp [can_produce_mana, h]
  · intro h
    have hne : c.ctype ≠ "land" := by rw [h]; decide
    simp [can_produce_mana, h, hne]
  · intro h
    have hne : c.ctype ≠ "land" := by rw [h]; decide
    have hne2 : c.ctype ≠ "rock" := by rw [h]; decide
    simp [can_produce_mana, h, hne, hne2]
  · intro h
    rcases h with h | h <;>
      · have hne : c.ctype ≠ "land" := by rw [h]; decide
        have hne2 : c.ctype ≠ "rock" := by rw [h]; decide
        have hne3 : c.ctype ≠ "dork" := by rw [h]; decide
        simp [can_produce_mana, hne, hne2, hne3]

/-- C2 witness: the theorem applied to a concrete tapped land on its entry
turn, a rock, a dork on its entry turn, and a filler. -/
theorem c2_can_produce_mana_witness :
    can_produce_mana
        { name := "Temple", ctype := "land", cost := 0,
          mana := [("black", 1)], enters_tapped := true,
          summoning_sick := false, cost_reduction := [] } 3 3 = false
    ∧ can_produce_mana
        { name := "Mind Stone", ctype := "rock", cost := 2,
          mana := [("colorless", 1)], enters_tapped := false,
          summoning_sick := false, cost_reduction := [] } 3 3 = true
    ∧ can_produce_mana
        { name := "Llanowar Elves", ctype := "dork", cost := 1,
          mana := [("green", 1)], enters_tapped := false,
          summoning_sick := true, cost_reduction := [] } 3 3 = false
    ∧ can_produce_mana
        { name := "Filler", ctype := "filler", cost := 0,
          mana := [], enters_tapped := false,
          summoning_sick := false, cost_reduction := [] } 3 3 = false := by
  refine ⟨?_, ?_, ?_, ?_⟩
  · exact ((c2_can_produce_mana _ 3 3).1 rfl).mpr ⟨rfl, rfl⟩
  · exact (c2_can_produce_mana _ 3 3).2.1 rfl
  · have h := (c2_can_produce_mana
      { name := "Llanowar Elves", ctype := "dork", cost := 1,
        mana := [("green", 1)], enters_tapped := false,
        summoning_sick := true, cost_reduction := [] } 3 3).2.2.1 rfl
    by_contra hc
    have : (3 : Nat) < 3 := h.mp (by
      cases hcan : can_produce_mana
        { name := "Llanowar Elves", ctype := "dork", cost := 1,
          mana := [("green", 1)], enters_tapped := false,
          summoning_sick := true, cost_reduction := [] } 3 3
      · exact absurd hcan hc
      · rfl)
    omega
  · exact (c2_can_produce_mana _ 3 3).2.2.2 (Or.inr rfl)

/-!
## Termination of the loops (claim C6)

The two unbounded `while` loops of CommanderRampV003.py are embedded with
fuel.  The claim that they terminate within their stated bounds becomes:
giving the loop any fuel beyond the bound (`max_turns` turn iterations;
`hand.length` greedy deployment passes) changes nothing.
-/

theorem draw_turn (g : GState) : (draw g).turn = g.turn := by
  unfold draw
  cases g.deck.getLast? <;> rfl

theorem play_land_turn (g : GState) : (play_land g).turn = g.turn := by
  unfold play_land
  by_cases h : (g.lands_played == 0) = true
  · rw [if_pos h]
    cases extractFirst (fun c => c.ctype == "land") g.hand <;> rfl
  · rw [if_neg h]

theorem play_permanents_go_turn (fuel : Nat) (g : GState) :
    (play_permanents_go fuel g).turn = g.turn := by
  induction fuel generalizing g with
  | zero => rfl
  | succ f ih =>
      unfold play_permanents_go
      cases findDeploy g g.hand with
      | none => rfl
      | some pr => exact ih _

theorem turn_step_turn (g : GState) : (turn_step g).turn = g.turn + 1 := by
  unfold turn_step play_permanents
  rw [play_permanents_go_turn, play_land_turn, draw_turn]

theorem findDeploy_length (g : GState) (l : List Card) (pr : Card × List Card)
    (h : findDeploy g l = some pr) : pr.2.length + 1 = l.length := by
  induction l generalizing pr with
  | nil => simp [findDeploy] at h
  | cons c rest ih =>
      unfold findDeploy at h
      by_cases hc : ((c.ctype == "rock" || c.ctype == "dork"
          || c.ctype == "reducer") && can_pay_cost g c.cost) = true
      · rw [if_pos hc] at h
        cases h
        rfl
      · rw [if_neg hc] at h
        cases hrec : findDeploy g rest with
        | none => rw [hrec] at h; cases h
        | some pr2 =>
            rw [hrec] at h
            cases h
            have := ih pr2 hrec
            simp only [List.length_cons]
            omega

theorem play_permanents_go_fuel (fuel : Nat) (g : GState)
    (h : g.hand.length ≤ fuel) :
    play_permanents_go fuel g = play_permanents_go g.hand.length g := by
  induction fuel generalizing g with
  | zero =>
      have : g.hand.length = 0 := by omega
      rw [this]
  | succ f ih =>
      cases hn : g.hand.length with
      | zero =>
          have hh : g.hand = [] := List.length_eq_zero.mp hn
          have hnone : findDeploy g g.hand = none := by rw [hh]; rfl
          show play_permanents_go (f + 1) g = g
          unfold play_permanents_go
          rw [hnone]
      | succ n =>
          unfold play_permanents_go
          cases hd : findDeploy g g.hand with
          | none => rfl
          | some pr =>
              obtain ⟨c, rest⟩ := pr
              have hlen := findDeploy_length g g.hand (c, rest) hd
              have hrl : rest.length = n := by
                simp only at hlen
                omega
              show play_permanents_go f
                    { g with hand := rest,
                             battlefield := g.battlefield ++ [(c, g.turn)] }
                  = play_permanents_go n
                    { g with hand := rest,
                             battlefield := g.battlefield ++ [(c, g.turn)] }
              have hle : rest.length ≤ f := by omega
              have hIH := ih
                { g with hand := rest,
                         battlefield := g.battlefield ++ [(c, g.turn)] } hle
              rw [hIH]
              congr 1

theorem play_until_go_fuel (cc : Mana) (mt : Nat) (fuel : Nat) (g : GState)
    (h : mt - g.turn ≤ fuel) :
    play_until_go cc mt fuel g = play_until_go cc mt (mt - g.turn) g := by
  induction fuel generalizing g with
  | zero =>
      have : mt - g.turn = 0 := by omega
      rw [this]
  | succ f ih =>
      by_cases ht : g.turn < mt
      · have hsub : mt - g.turn = (mt - (g.turn + 1)) + 1 := by omega
        rw [hsub]
        unfold play_until_go
        rw [if_pos ht, if_pos ht]
        by_cases hcast : can_cast_commander (turn_step g) cc = true
        · rw [if_pos hcast, if_pos hcast]
        · rw [if_neg hcast, if_neg hcast]
          have hstep : mt - (turn_step g).turn = mt - (g.turn + 1) := by
            rw [turn_step_turn]
          have hle : mt - (turn_step g).turn ≤ f := by
            rw [hstep]; omega
          rw [ih (turn_step g) hle, hstep]
      · have hz : mt - g.turn = 0 := by omega
        rw [hz]
        unfold play_until_go
        rw [if_neg ht]

/-- C6: every trial terminates.  The turn loop is exhausted after at most
`max_turns` iterations — any extra fuel beyond `max_turns - turn` leaves
`play_until_commander`'s answer (a cast turn or a timeout) unchanged — and
the greedy deployment loop inside a turn reaches its fixed point within
`hand.length` passes, since each productive pass moves one card out of the
hand. -/
theorem c6_termination (cc : Mana) (mt : Nat) (g : GState) (k : Nat) :
    play_until_go cc mt (mt - g.turn + k) g = play_until_commander g cc mt
    ∧ play_permanents_go (g.hand.length + k) g = play_permanents g := by
  constructor
  · exact play_until_go_fuel cc mt (mt - g.turn + k) g (by omega)
  · exact play_permanents_go_fuel (g.hand.length + k) g (by omega)

/-!
## Range of the trial engine and harness bookkeeping (claim C10)
-/

theorem play_until_go_range (cc : Mana) (mt : Nat) (fuel : Nat) (g : GState)
    (t : Nat) (h : play_until_go cc mt fuel g = some t) :
    g.turn + 1 ≤ t ∧ t ≤ mt := by
  induction fuel generalizing g with
  | zero => cases h
  | succ f ih =>
      unfold play_until_go at h
      by_cases ht : g.turn < mt
      · rw [if_pos ht] at h
        by_cases hcast : can_cast_commander (turn_step g) cc = true
        · rw [if_pos hcast] at h
          cases h
          rw [turn_step_turn]
          omega
        · rw [if_neg hcast] at h
          have := ih (turn_step g) h
          rw [turn_step_turn] at this
          omega
      · rw [if_neg ht] at h
        cases h

/-- The trial engine, started from a freshly dealt game, never reports
turn 0: a reported cast turn lies between 1 and max_turns. -/
theorem play_until_commander_range (s : List Card) (cc : Mana) (mt : Nat)
    (t : Nat) (h : play_until_commander (mkGame s) cc mt = some t) :
    1 ≤ t ∧ t ≤ mt := by
  have := play_until_go_range cc mt (mt - (mkGame s).turn) (mkGame s) t h
  exact ⟨this.1, this.2⟩

theorem run_fold_eq (cc : Mana) (mt : Nat) (shuffles : List (List Card))
    (acc : List Nat) :
    shuffles.foldl
      (fun a s =>
        match play_until_commander (mkGame s) cc mt with
        | some t => if t == 0 then a else a ++ [t]
        | none => a)
      acc
    = acc ++ shuffles.filterMap (fun s => play_until_commander (mkGame s) cc mt) := by
  induction shuffles generalizing acc with
  | nil => simp
  | cons s rest ih =>
      simp only [List.foldl_cons, List.filterMap_cons]
      cases hs : play_until_commander (mkGame s) cc mt with
      | none => exact ih acc
      | some t =>
          have h1 : 1 ≤ t := (play_until_commander_range s cc mt t hs).1
          have hz : (t == 0) = false := by
            simp only [beq_eq_false_iff_ne, ne_eq]
            omega
          simp only [hz, Bool.false_eq_true, if_false, ih (acc ++ [t])]
          simp

/-- C10: a single trial returns either a timeout or an integer turn `t`
with `1 ≤ t ≤ max_turns`, never 0, so the harness's Python truthiness
filter (`if turn_cast:`) keeps exactly the successful (non-None) trial
results and the reported successful-trial count equals their number. -/
theorem c10_engine_range_and_count (shuffles : List (List Card)) (cc : Mana)
    (mt : Nat) :
    (∀ s t, play_until_commander (mkGame s) cc mt = some t → 1 ≤ t ∧ t ≤ mt)
    ∧ (run_simulation_v3 shuffles cc mt).1
        = shuffles.filterMap (fun s => play_until_commander (mkGame s) cc mt)
    ∧ (run_simulation_v3 shuffles cc mt).2.2
        = (shuffles.filterMap
            (fun s => play_until_commander (mkGame s) cc mt)).length := by
  refine ⟨fun s t h => play_until_commander_range s cc mt t h, ?_, ?_⟩
  · show shuffles.foldl _ [] = _
    rw [run_fold_eq]
    simp
  · show (shuffles.foldl _ []).length = _
    rw [run_fold_eq]
    simp

/-- A plain untapped Land producing one colorless mana, the deck card of
Scenario A and of CommanderRampV001.py. -/
def colorlessLand : Card :=
  { name := "Land", ctype := "land", cost := 0, mana := [("colorless", 1)],
    enters_tapped := false, summoning_sick := false, cost_reduction := [] }

/-- C10 witness: on a seven-land deck the engine reports turn 6, which the
theorem places in [1, 20], and the harness records exactly that one
successful trial. -/
theorem c10_engine_range_and_count_witness :
    (1 ≤ 6 ∧ 6 ≤ 20)
    ∧ (run_simulation_v3 [List.replicate 7 colorlessLand]
        [("colorless", 6)] 20).1 = [6]
    ∧ (run_simulation_v3 [List.replicate 7 colorlessLand]
        [("colorless", 6)] 20).2.2 = 1 := by
  obtain ⟨hrange, hres, hcount⟩ :=
    c10_engine_range_and_count [List.replicate 7 colorlessLand]
      [("colorless", 6)] 20
  refine ⟨hrange (List.replicate 7 colorlessLand) 6 (by decide), ?_, ?_⟩
  · rw [hres]; decide
  · rw [hcount]; decide

/-!
## Conservation of cards across zones (claim C7)
-/

/-- The multiset of cards across Library, Hand and Battlefield. -/
def zones (g : GState) : Multiset Card :=
  (g.deck : Multiset Card) + (g.hand : Multiset Card)
    + ((g.battlefield.map Prod.fst : List Card) : Multiset Card)

theorem zones_mkGame (s : List Card) : zones (mkGame s) = (s : Multiset Card) := by
  unfold zones mkGame
  simp only [List.map_nil, Multiset.coe_nil, add_zero, Multiset.coe_add]
  rw [Multiset.coe_eq_coe]
  refine ((List.reverse_perm _).append_right _).trans ?_
  refine List.perm_append_comm.trans ?_
  rw [List.take_append_drop]
  exact List.reverse_perm s

theorem extractFirst_perm (p : Card → Bool) (l : List Card) (c : Card)
    (rest : List Card) (h : extractFirst p l = some (c, rest)) :
    l.Perm (c :: rest) := by
  induction l generalizing c rest with
  | nil => cases h
  | cons a tl ih =>
      unfold extractFirst at h
      by_cases hp : p a = true
      · rw [if_pos hp] at h
        cases h
        exact List.Perm.refl _
      · rw [if_neg hp] at h
        cases hrec : extractFirst p tl with
        | none => rw [hrec] at h; cases h
        | some pr =>
            obtain ⟨c2, rest2⟩ := pr
            rw [hrec] at h
            cases h
            exact ((ih c2 rest2 hrec).cons a).trans (List.Perm.swap c2 a rest2)

theorem findDeploy_perm (g : GState) (l : List Card) (c : Card)
    (rest : List Card) (h : findDeploy g l = some (c, rest)) :
    l.Perm (c :: rest) := by
  induction l generalizing c rest with
  | nil => cases h
  | cons a tl ih =>
      unfold findDeploy at h
      by_cases hp : ((a.ctype == "rock" || a.ctype == "dork"
          || a.ctype == "reducer") && can_pay_cost g a.cost) = true
      · rw [if_pos hp] at h
        cases h
        exact List.Perm.refl _
      · rw [if_neg hp] at h
        cases hrec : findDeploy g tl with
        | none => rw [hrec] at h; cases h
        | some pr =>
            obtain ⟨c2, rest2⟩ := pr
            rw [hrec] at h
            cases h
            exact ((ih c2 rest2 hrec).cons a).trans (List.Perm.swap c2 a rest2)

theorem zones_draw (g : GState) : zones (draw g) = zones g := by
  unfold draw
  cases hl : g.deck.getLast? with
  | none => rfl
  | some c =>
      have hd : g.deck.dropLast ++ [c] = g.deck :=
        List.dropLast_append_getLast? c hl
      show (g.deck.dropLast : Multiset Card) + ↑(g.hand ++ [c])
          + ↑(g.battlefield.map Prod.fst) = zones g
      unfold zones
      conv_rhs => rw [← hd]
      simp only [← Multiset.coe_add]
      abel

theorem zones_play_land (g : GState) : zones (play_land g) = zones g := by
  unfold play_land
  by_cases h0 : (g.lands_played == 0) = true
  · rw [if_pos h0]
    cases he : extractFirst (fun c => c.ctype == "land") g.hand with
    | none => rfl
    | some pr =>
        obtain ⟨c, rest⟩ := pr
        have hp : (g.hand : Multiset Card) = ↑(c :: rest) :=
          Multiset.coe_eq_coe.mpr (extractFirst_perm _ _ _ _ he)
        show (g.deck : Multiset Card) + ↑rest
            + ↑((g.battlefield ++ [(c, g.turn)]).map Prod.fst) = zones g
        unfold zones
        rw [hp]
        simp only [List.map_append, ← Multiset.coe_add, List.map_cons,
          List.map_nil]
        have hcr : ((c :: rest : List Card) : Multiset Card) = ↑[c] + ↑rest :=
          (Multiset.coe_add [c] rest).symm
        rw [hcr]
        abel
  · rw [if_neg h0]

theorem zones_play_permanents_go (fuel : Nat) (g : GState) :
    zones (play_permanents_go fuel g) = zones g := by
  induction fuel generalizing g with
  | zero => rfl
  | succ f ih =>
      unfold play_permanents_go
      cases hd : findDeploy g g.hand with
      | none => rfl
      | some pr =>
          obtain ⟨c, rest⟩ := pr
          rw [ih]
          have hp : (g.hand : Multiset Card) = ↑(c :: rest) :=
            Multiset.coe_eq_coe.mpr (findDeploy_perm _ _ _ _ hd)
          show (g.deck : Multiset Card) + ↑rest
              + ↑((g.battlefield ++ [(c, g.turn)]).map Prod.fst) = zones g
          unfold zones
          rw [hp]
          simp only [List.map_append, ← Multiset.coe_add, List.map_cons,
            List.map_nil]
          have hcr : ((c :: rest : List Card) : Multiset Card) = ↑[c] + ↑rest :=
            (Multiset.coe_add [c] rest).symm
          rw [hcr]
          abel

theorem zones_turn_step (g : GState) : zones (turn_step g) = zones g := by
  unfold turn_step play_permanents
  rw [zones_play_permanents_go, zones_play_land]
  show zones (draw { g with turn := g.turn + 1, lands_played := 0 }) = zones g
  rw [zones_draw]
  rfl

theorem zones_run_turns (n : Nat) (g : GState) :
    zones (run_turns n g) = zones g := by
  induction n generalizing g with
  | zero => rfl
  | succ m ih =>
      unfold run_turns
      rw [ih, zones_turn_step]

/-- C7: at every turn boundary of a trial the multiset of cards across
Library, Hand and Battlefield equals the deck template's multiset, so the
three zone sizes always sum to the template size: draw, land play and
greedy deployment only move cards between zones. -/
theorem c7_conservation (template shuffled : List Card)
    (hperm : shuffled.Perm template) (n : Nat) :
    zones (run_turns n (mkGame shuffled)) = (template : Multiset Card)
    ∧ (run_turns n (mkGame shuffled)).deck.length
        + (run_turns n (mkGame shuffled)).hand.length
        + (run_turns n (mkGame shuffled)).battlefield.length
      = template.length := by
  have hz : zones (run_turns n (mkGame shuffled)) = (template : Multiset Card) := by
    rw [zones_run_turns, zones_mkGame]
    exact Multiset.coe_eq_coe.mpr hperm
  refine ⟨hz, ?_⟩
  have hcard := congrArg Multiset.card hz
  simp [zones, Multiset.coe_card] at hcard
  omega

/-- C7 witness: three turns into a trial on a seven-land deck, the zones
still hold exactly the template's cards and their sizes sum to 7. -/
theorem c7_conservation_witness :
    zones (run_turns 3 (mkGame (List.replicate 7 colorlessLand)))
      = ((List.replicate 7 colorlessLand : List Card) : Multiset Card)
    ∧ (run_turns 3 (mkGame (List.replicate 7 colorlessLand))).deck.length
        + (run_turns 3 (mkGame (List.replicate 7 colorlessLand))).hand.length
        + (run_turns 3 (mkGame (List.replicate 7 colorlessLand))).battlefield.length
      = (List.replicate 7 colorlessLand : List Card).length :=
  c7_conservation (List.replicate 7 colorlessLand)
    (List.replicate 7 colorlessLand) (List.Perm.refl _) 3

/-!
## Scenario A (claim C4): 100 colorless Lands, commander cost 6 colorless
-/

/-- The zone state of a Scenario A trial after `k` turns: `k` lands on the
battlefield (entered on turns 1..k), a full hand of seven lands, and
`93 - k` lands left in the library. -/
def scA (k : Nat) : GState :=
  { turn := k
    deck := List.replicate (93 - k) colorlessLand
    hand := List.replicate 7 colorlessLand
    battlefield := (List.range k).map (fun i => (colorlessLand, i + 1))
    lands_played := if k = 0 then 0 else 1 }

theorem play_until_go_succ_eq (cc : Mana) (mt fuel : Nat) (g : GState) :
    play_until_go cc mt (fuel + 1) g =
      if g.turn < mt then
        (if can_cast_commander (turn_step g) cc then some (turn_step g).turn
         else play_until_go cc mt fuel (turn_step g))
      else none := rfl

/-- On the all-lands Scenario A deck the engine casts on exactly turn 6
whenever at least six turns are allowed. -/
theorem scenarioA_engine (mt : Nat) (h : 6 ≤ mt) :
    play_until_commander (mkGame (List.replicate 100 colorlessLand))
      [("colorless", 6)] mt = some 6 := by
  obtain ⟨f, rfl⟩ : ∃ f, mt = f + 6 := ⟨mt - 6, by omega⟩
  unfold play_until_commander
  rw [show mkGame (List.replicate 100 colorlessLand) = scA 0 from by decide]
  rw [show f + 6 - (scA 0).turn = (f + 5) + 1 from by simp [scA]]
  rw [play_until_go_succ_eq]
  rw [if_pos (show (scA 0).turn < f + 6 from by simp [scA])]
  rw [show turn_step (scA 0) = scA 1 from by decide]
  rw [show can_cast_commander (scA 1) [("colorless", 6)] = false from by decide]
  simp only [Bool.false_eq_true, if_false]
  rw [show f + 5 = (f + 4) + 1 from by omega, play_until_go_succ_eq]
  rw [if_pos (show (scA 1).turn < f + 6 from by show (1 : Nat) < f + 6; omega)]
  rw [show turn_step (scA 1) = scA 2 from by decide]
  rw [show can_cast_commander (scA 2) [("colorless", 6)] = false from by decide]
  simp only [Bool.false_eq_true, if_false]
  rw [show f + 4 = (f + 3) + 1 from by omega, play_until_go_succ_eq]
  rw [if_pos (show (scA 2).turn < f + 6 from by show (2 : Nat) < f + 6; omega)]
  rw [show turn_step (scA 2) = scA 3 from by decide]
  rw [show can_cast_commander (scA 3) [("colorless", 6)] = false from by decide]
  simp only [Bool.false_eq_true, if_false]
  rw [show f + 3 = (f + 2) + 1 from by omega, play_until_go_succ_eq]
  rw [if_pos (show (scA 3).turn < f + 6 from by show (3 : Nat) < f + 6; omega)]
  rw [show turn_step (scA 3) = scA 4 from by decide]
  rw [show can_cast_commander (scA 4) [("colorless", 6)] = false from by decide]
  simp only [Bool.false_eq_true, if_false]
  rw [show f + 2 = (f + 1) + 1 from by omega, play_until_go_succ_eq]
  rw [if_pos (show (scA 4).turn < f + 6 from by show (4 : Nat) < f + 6; omega)]
  rw [show turn_step (scA 4) = scA 5 from by decide]
  rw [show can_cast_commander (scA 5) [("colorless", 6)] = false from by decide]
  simp only [Bool.false_eq_true, if_false]
  rw [show f + 1 = f + 0 + 1 from by omega, play_until_go_succ_eq]
  rw [if_pos (show (scA 5).turn < f + 6 from by show (5 : Nat) < f + 6; omega)]
  rw [show turn_step (scA 5) = scA 6 from by decide]
  rw [show can_cast_commander (scA 6) [("colorless", 6)] = true from by decide]
  simp only [if_true]
  decide

theorem filterMap_all_some_six (l : List (List Card))
    (f : List Card → Option Nat) (h : ∀ a ∈ l, f a = some 6) :
    l.filterMap f = List.replicate l.length 6 := by
  induction l with
  | nil => rfl
  | cons a tl ih =>
      simp only [List.filterMap_cons, h a (List.mem_cons_self a tl),
        List.length_cons, List.replicate_succ]
      rw [ih (fun b hb => h b (List.mem_cons_of_mem a hb))]

/-- C4: on a deck of 100 untapped Lands each producing 1 colorless mana,
against commander cost {colorless: 6} with at least six turns allowed,
every trial casts on exactly turn 6: the result list is all sixes, the
distribution maps turn 6 to the trial count, and every other turn has
count zero. -/
theorem c4_all_lands_cast_turn_six (shuffles : List (List Card)) (mt : Nat)
    (hperm : ∀ s ∈ shuffles, s.Perm (List.replicate 100 colorlessLand))
    (hmt : 6 ≤ mt) :
    (run_simulation_v3 shuffles [("colorless", 6)] mt).1
      = List.replicate shuffles.length 6
    ∧ (run_simulation_v3 shuffles [("colorless", 6)] mt).1.count 6
      = shuffles.length
    ∧ ∀ t, t ≠ 6 →
        (run_simulation_v3 shuffles [("colorless", 6)] mt).1.count t = 0 := by
  have hres : (run_simulation_v3 shuffles [("colorless", 6)] mt).1
      = List.replicate shuffles.length 6 := by
    show shuffles.foldl _ [] = _
    rw [run_fold_eq]
    simp only [List.nil_append]
    apply filterMap_all_some_six
    intro s hs
    have hseq : s = List.replicate 100 colorlessLand :=
      List.perm_replicate.mp (hperm s hs)
    rw [hseq]
    exact scenarioA_engine mt hmt
  refine ⟨hres, ?_, ?_⟩
  · rw [hres]
    simp
  · intro t ht
    rw [hres, List.count_replicate]
    simp only [beq_iff_eq]
    rw [if_neg (fun hh => ht (Eq.symm hh))]

/-- C4 witness: a single trial on the Scenario A deck with exactly six
turns allowed yields the result list [6], count 1 at turn 6 and count 0 at
turn 5. -/
theorem c4_all_lands_cast_turn_six_witness :
    (run_simulation_v3 [List.replicate 100 colorlessLand]
        [("colorless", 6)] 6).1 = List.replicate 1 6
    ∧ (run_simulation_v3 [List.replicate 100 colorlessLand]
        [("colorless", 6)] 6).1.count 6 = 1
    ∧ (run_simulation_v3 [List.replicate 100 colorlessLand]
        [("colorless", 6)] 6).1.count 5 = 0 := by
  obtain ⟨h1, h2, h3⟩ :=
    c4_all_lands_cast_turn_six [List.replicate 100 colorlessLand] 6
      (by
        intro s hs
        rw [List.mem_singleton] at hs
        rw [hs])
      (by omega)
  exact ⟨h1, by simpa using h2, h3 5 (by omega)⟩

/-!
## CommanderRampV001.py

The earliest variant: dict-shaped cards, colorless mana only, a commander
cost that is a plain integer (defaulting to 6) and a 20-turn window.  Its
`run_simulation` computes `sum(results) / len(results)` with no emptiness
guard, so zero successful trials raise ZeroDivisionError; the raise is
embedded as `Except.error`.
-/

structure CardV1 where
  name : String
  ctype : String
  cost : Nat
  mana : Mana
deriving DecidableEq

/-- The Land row of `build_deck` (V001 line 8). -/
def landV1 : CardV1 :=
  { name := "Land", ctype := "land", cost := 0, mana := [("colorless", 1)] }

/-- The Rock row of `build_deck` (V001 line 10). -/
def rockV1 : CardV1 :=
  { name := "Rock", ctype := "rock", cost := 2, mana := [("colorless", 1)] }

/-- The Filler row of `build_deck` (V001 line 12). -/
def fillerV1 : CardV1 :=
  { name := "Filler", ctype := "filler", cost := 0, mana := [] }

/-- `build_deck` (V001 lines 5-13).  The counts are `Int` because Python
accepts negative counts: `range(n)` with `n ≤ 0` is simply empty, which is
what `Int.toNat` gives; no validation of any kind is performed. -/
def build_deck (lands rocks fillers : Int) : List CardV1 :=
  List.replicate lands.toNat landV1 ++ List.replicate rocks.toNat rockV1
    ++ List.replicate fillers.toNat fillerV1

structure GStateV1 where
  turn : Nat
  deck : List CardV1
  hand : List CardV1
  battlefield : List CardV1
  lands_played : Nat
deriving DecidableEq

/-- `Game.__init__` body after the shuffle (V001 lines 17-22): deal seven
cards from the end of the shuffled list. -/
def mkGameV1 (shuffled : List CardV1) : GStateV1 :=
  { turn := 0
    deck := (shuffled.reverse.drop 7).reverse
    hand := shuffled.reverse.take 7
    battlefield := []
    lands_played := 0 }

/-- `Game.draw` (V001 lines 24-26). -/
def drawV1 (g : GStateV1) : GStateV1 :=
  match g.deck.getLast? with
  | none => g
  | some c => { g with deck := g.deck.dropLast, hand := g.hand ++ [c] }

/-- `Game.available_mana` (V001 lines 28-29): the battlefield total of
each card's `mana.get("colorless", 0)`; no tapped or sickness rules. -/
def available_manaV1 (g : GStateV1) : Nat :=
  (g.battlefield.map (fun c => getD c.mana "colorless")).sum

/-- Remove the first list element satisfying `p` (V001 uses the same
scan-then-`remove` idiom as V003). -/
def extractFirstV1 (p : CardV1 → Bool) :
    List CardV1 → Option (CardV1 × List CardV1)
  | [] => none
  | c :: rest =>
      if p c then some (c, rest)
      else
        match extractFirstV1 p rest with
        | none => none
        | some pr => some (pr.1, c :: pr.2)

/-- `Game.play_land` (V001 lines 31-39). -/
def play_landV1 (g : GStateV1) : GStateV1 :=
  if g.lands_played == 0 then
    match extractFirstV1 (fun c => c.ctype == "land") g.hand with
    | none => g
    | some (c, rest) =>
        { g with hand := rest
                 battlefield := g.battlefield ++ [c]
                 lands_played := 1 }
  else g

/-- One scan of `Game.play_rocks` (V001 lines 46-53): the first rock in
hand whose cost the current battlefield mana can pay. -/
def findRockV1 (g : GStateV1) : List CardV1 → Option (CardV1 × List CardV1)
  | [] => none
  | c :: rest =>
      if c.ctype == "rock" && decide (c.cost ≤ available_manaV1 g) then
        some (c, rest)
      else
        match findRockV1 g rest with
        | none => none
        | some pr => some (pr.1, c :: pr.2)

/-- The `while played` loop of `Game.play_rocks` (V001 lines 41-53),
fuelled by the hand size. -/
def play_rocks_go : Nat → GStateV1 → GStateV1
  | 0, g => g
  | fuel + 1, g =>
      match findRockV1 g g.hand with
      | none => g
      | some (c, rest) =>
          play_rocks_go fuel
            { g with hand := rest, battlefield := g.battlefield ++ [c] }

/-- `Game.play_rocks` (V001 lines 41-53). -/
def play_rocksV1 (g : GStateV1) : GStateV1 :=
  play_rocks_go g.hand.length g

/-- One iteration body of `Game.play_until_commander` (V001 lines 57-62). -/
def turn_stepV1 (g : GStateV1) : GStateV1 :=
  play_rocksV1 (play_landV1 (drawV1 { g with turn := g.turn + 1, lands_played := 0 }))

/-- The turn loop of `Game.play_until_commander` (V001 lines 56-65),
fuelled. -/
def play_untilV1_go (cc mt : Nat) : Nat → GStateV1 → Option Nat
  | 0, _ => none
  | fuel + 1, g =>
      if g.turn < mt then
        let g2 := turn_stepV1 g
        if decide (cc ≤ available_manaV1 g2) then some g2.turn
        else play_untilV1_go cc mt fuel g2
      else none

/-- `Game.play_until_commander` (V001 lines 56-65); the source defaults
are commander_cost = 6 and max_turns = 20. -/
def play_until_commanderV1 (g : GStateV1) (cc mt : Nat) : Option Nat :=
  play_untilV1_go cc mt (mt - g.turn) g

/-- `run_simulation` (V001 lines 68-78) with the shuffles injected, one
pre-shuffled deck per trial.  Line 77 computes
`avg_turn = sum(results) / len(results)` with NO emptiness guard, so when
no trial succeeds the call raises ZeroDivisionError; the raise is the
`Except.error` branch.  On success it returns the kept results (the
`Counter` is queried through `List.count`) and the average. -/
def run_simulationV1 (shuffles : List (List CardV1)) (cc mt : Nat) :
    Except String (List Nat × Rat) :=
  let results := shuffles.foldl
    (fun acc s =>
      match play_until_commanderV1 (mkGameV1 s) cc mt with
      | some t => if t == 0 then acc else acc ++ [t]
      | none => acc)
    []
  if results.length == 0 then
    Except.error "ZeroDivisionError: division by zero"
  else
    Except.ok (results, (results.sum : Rat) / (results.length : Rat))

/-- C5: the claim says the harness signals a zero-success average as "no
data" instead of raising a division fault.  CommanderRampV003's harness
does (its average is None-guarded), but CommanderRampV001's harness
divides unguarded: on a deck of 100 Fillers (no mana producers, so the
single trial times out and zero trials succeed, the scenario the claim
describes) it raises ZeroDivisionError.  This theorem evaluates both
harnesses at that zero-success configuration. -/
theorem c5_zero_success_average :
    run_simulationV1 [build_deck 0 0 100] 6 20
      = Except.error "ZeroDivisionError: division by zero"
    ∧ (run_simulation_v3 [List.replicate 100 colorlessLand]
        [("colorless", 101)] 10).2.1 = none
    ∧ (run_simulation_v3 [List.replicate 100 colorlessLand]
        [("colorless", 101)] 10).2.2 = 0 := by
  refine ⟨by rfl, by decide, by decide⟩

/-!
## Configuration validation (claim C9)

No variant of the program validates its configuration.  `build_deck`
accepts negative or zero counts silently (Python's `range` is simply
empty), `run_simulation` with a non-positive trial count returns normally
after zero trials, with a non-positive max-turns every trial just times
out, and a deck of fewer than seven cards only fails later, while the
opening hand is dealt, with an IndexError — not a configuration error.
-/

/-- C9 counterexample: at the explicit malformed configuration of negative
card counts, construction does not fail fast with a configuration error —
the deck builder silently returns an empty deck, and dealing the opening
hand from it then raises a plain IndexError. -/
theorem c9_counterexample_no_validation :
    build_deck (-5) (-1) 0 = ([] : List CardV1)
    ∧ initV3 [] = Except.error "IndexError: pop from empty list" := by
  refine ⟨by decide, by rfl⟩

/-- C9 amended: no configuration validation exists.  Non-positive card
counts silently produce an empty deck; a deck of fewer than seven cards
fails only at hand-dealing time with an IndexError, not a descriptive
configuration error; and a non-positive (here zero) trial count runs zero
trials and returns normally instead of failing fast. -/
theorem c9_no_fail_fast (lands rocks fillers : Int)
    (hl : lands ≤ 0) (hr : rocks ≤ 0) (hf : fillers ≤ 0)
    (shuffled : List Card) (hs : shuffled.length < 7) (cc : Mana) (mt : Nat) :
    build_deck lands rocks fillers = []
    ∧ initV3 shuffled = Except.error "IndexError: pop from empty list"
    ∧ run_simulation_v3 [] cc mt = ([], none, 0) := by
  refine ⟨?_, ?_, ?_⟩
  · unfold build_deck
    rw [Int.toNat_of_nonpos hl, Int.toNat_of_nonpos hr, Int.toNat_of_nonpos hf]
    rfl
  · unfold initV3
    rw [if_pos hs]
  · rfl

/-- C9 witness: the amended theorem applied at the concrete malformed
configuration of counts (-5, -1, 0), the empty deck and zero trials. -/
theorem c9_no_fail_fast_witness :
    build_deck (-5) (-1) 0 = []
    ∧ initV3 [] = Except.error "IndexError: pop from empty list"
    ∧ run_simulation_v3 [] [("colorless", 1)] 5 = ([], none, 0) :=
  c9_no_fail_fast (-5) (-1) 0 (by decide) (by decide) (by decide)
    [] (by decide) [("colorless", 1)] 5

/-!
## CommanderRampV004.py

Class-based variant.  Cards are a closed hierarchy: `Card` (inert base,
"Other"), `Land(produces, enters_tapped)`, `ConditionalLand` (a subclass
of `Land`; the only condition constructed anywhere in the source is
`has_mountain`, so it is inlined here), `ManaRock(cost, produces)` and
`ManaDork(cost, produces, summoning_sick)`.  `isinstance(card, Land)`
covers `ConditionalLand` as well.

`simulate_game(deck, ...)` begins with `random.shuffle(deck)`, an IN-PLACE
shuffle of the caller's list — the shared deck template built once by
`run_simulations` — so a trial mutates the template's order.  The
embedding passes that state explicitly: the injected shuffle permutation
is applied to the incoming deck and the shuffled list is returned
alongside the trial result, as the template's state after the trial.
-/

inductive CardV4 where
  | other (name : String)
  | land (name : String) (produces : List String) (tapped_flag : Bool)
  | condland (name : String) (produces : List String)
  | rock (name : String) (cost : Nat) (produces : List String)
  | dork (name : String) (cost : Nat) (produces : List String) (sick : Bool)
deriving DecidableEq

/-- Python `isinstance(card, Land)`: true for `Land` and its subclass
`ConditionalLand`. -/
def isLandV4 : CardV4 → Bool
  | CardV4.land _ _ _ => true
  | CardV4.condland _ _ => true
  | _ => false

def isRockV4 : CardV4 → Bool
  | CardV4.rock _ _ _ => true
  | _ => false

def producesV4 : CardV4 → List String
  | CardV4.other _ => []
  | CardV4.land _ pr _ => pr
  | CardV4.condland _ pr => pr
  | CardV4.rock _ _ pr => pr
  | CardV4.dork _ _ pr _ => pr

/-- `has_mountain` (V004 lines 51-52): some battlefield Land produces
"R". -/
def has_mountain (battlefield : List CardV4) : Bool :=
  battlefield.any (fun c => isLandV4 c && (producesV4 c).contains "R")

/-- `Land.play` / `ConditionalLand.play` (V004 lines 19-21 and 28-32):
whether the land enters tapped, decided against the battlefield as it is
BEFORE the land is appended. -/
def playTappedV4 (c : CardV4) (battlefield : List CardV4) : Bool :=
  match c with
  | CardV4.land _ _ t => t
  | CardV4.condland _ _ => !has_mountain battlefield
  | _ => false

structure SimV4 where
  turn : Nat
  hand : List CardV4
  library : List CardV4
  battlefield : List CardV4
  mana_sources : List CardV4
deriving DecidableEq

/-- The draw step (V004 lines 96-97): `library.pop(0)`, from the FRONT. -/
def drawV4 (s : SimV4) : SimV4 :=
  match s.library with
  | [] => s
  | c :: rest => { s with library := rest, hand := s.hand ++ [c] }

/-- Remove the first list element satisfying `p`. -/
def extractFirstV4 (p : CardV4 → Bool) :
    List CardV4 → Option (CardV4 × List CardV4)
  | [] => none
  | c :: rest =>
      if p c then some (c, rest)
      else
        match extractFirstV4 p rest with
        | none => none
        | some pr => some (pr.1, c :: pr.2)

/-- The land-play step (V004 lines 100-107): the first Land in hand goes
to the battlefield; if it enters untapped it also joins `mana_sources`. -/
def playLandV4 (s : SimV4) : SimV4 :=
  match extractFirstV4 isLandV4 s.hand with
  | none => s
  | some (c, rest) =>
      let tapped := playTappedV4 c s.battlefield
      { s with hand := rest
               battlefield := s.battlefield ++ [c]
               mana_sources :=
                 if tapped then s.mana_sources else s.mana_sources ++ [c] }

/-- One scan of the casting loop (V004 lines 114-128): the first hand card
that is a ManaRock or ManaDork whose cost fits the remaining
`mana_available` budget. -/
def findCastV4 (ma : Nat) : List CardV4 → Option (CardV4 × List CardV4)
  | [] => none
  | c :: rest =>
      if (match c with
          | CardV4.rock _ cost _ => decide (cost ≤ ma)
          | CardV4.dork _ cost _ _ => decide (cost ≤ ma)
          | _ => false) then
        some (c, rest)
      else
        match findCastV4 ma rest with
        | none => none
        | some pr => some (pr.1, c :: pr.2)

/-- The `while playable` casting loop (V004 lines 110-128), fuelled by the
hand size.  `mana_available` is `len(mana_sources)` computed once before
the loop, then only decremented; a cast rock joins `mana_sources` (for
future turns) while a cast dork is put on the battlefield with
`summoning_sick = True` and never joins `mana_sources`. -/
def castLoopV4 : Nat → Nat → SimV4 → SimV4
  | 0, _, s => s
  | fuel + 1, ma, s =>
      match findCastV4 ma s.hand with
      | none => s
      | some (c, rest) =>
          match c with
          | CardV4.rock n cost pr =>
              castLoopV4 fuel (ma - cost)
                { s with hand := rest
                         battlefield := s.battlefield ++ [CardV4.rock n cost pr]
                         mana_sources := s.mana_sources ++ [CardV4.rock n cost pr] }
          | CardV4.dork n cost pr _ =>
              castLoopV4 fuel (ma - cost)
                { s with hand := rest
                         battlefield := s.battlefield ++ [CardV4.dork n cost pr true] }
          | _ => s

/-- `total_mana` (V004 lines 130-133): ALL battlefield Lands (tapped or
not), plus all ManaRocks, plus non-sick ManaDorks. -/
def totalManaV4 (battlefield : List CardV4) : Nat :=
  (battlefield.filter isLandV4).length
    + (battlefield.filter isRockV4).length
    + (battlefield.filter (fun c =>
        match c with
        | CardV4.dork _ _ _ sick => !sick
        | _ => false)).length

/-- The sickness-clearing pass (V004 lines 135-138). -/
def clearSickV4 (battlefield : List CardV4) : List CardV4 :=
  battlefield.map (fun c =>
    match c with
    | CardV4.dork n cost pr _ => CardV4.dork n cost pr false
    | c => c)

/-- The `while turn < max_turns` loop of `simulate_game` (V004 lines
92-144), fuelled.  Order within a turn: draw, land play, casting loop,
compute `total_mana`, clear summoning sickness, then the commander
check against the pre-clear total. -/
def simLoopV4 (cc mt : Nat) : Nat → SimV4 → Option Nat
  | 0, _ => none
  | fuel + 1, s =>
      if s.turn < mt then
        let s1 := drawV4 { s with turn := s.turn + 1 }
        let s2 := playLandV4 s1
        let s3 := castLoopV4 s2.hand.length s2.mana_sources.length s2
        let total := totalManaV4 s3.battlefield
        let s4 := { s3 with battlefield := clearSickV4 s3.battlefield }
        if total ≥ cc then some s4.turn else simLoopV4 cc mt fuel s4
      else none

/-- `simulate_game` (V004 lines 83-144) with the in-place
`random.shuffle(deck)` made explicit: the injected permutation `perm` is
applied to the caller's deck, the first 7 cards become the hand and the
rest the library, and the shuffled list — the caller's deck object after
the trial — is returned alongside the result. -/
def simulate_gameV4 (perm : List CardV4 → List CardV4) (deck : List CardV4)
    (cc mt : Nat) : Option Nat × List CardV4 :=
  let d := perm deck
  (simLoopV4 cc mt mt
    { turn := 0, hand := d.take 7, library := d.drop 7,
      battlefield := [], mana_sources := [] },
   d)

/-- The conditional land of `build_deck` (V004 line 63): enters tapped
unless a Mountain is already in play. -/
def mountainCheckLand : CardV4 := CardV4.condland "MountainCheckLand" ["R"]

/-- C3: the claim says total mana counts exactly the battlefield
permanents whose canProduceMana holds, so a Land that entered tapped this
turn contributes nothing on its entry turn.  V003's available_mana does
exactly that, but V004's total_mana (lines 131-133) counts EVERY
battlefield Land, tapped or not: on a deck of 100 MountainCheckLands with
commander cost 1 and one turn allowed, the turn-1 land enters tapped (no
Mountain in play yet, so it is even excluded from mana_sources), yet
total_mana = 1 and the trial casts on turn 1 — where the claim requires
the tapped-entry land to contribute nothing, total mana 0, and no cast. -/
theorem c3_v4_tapped_land_counted :
    (simulate_gameV4 id (List.replicate 100 mountainCheckLand) 1 1).1 = some 1
    ∧ playTappedV4 mountainCheckLand [] = true := by
  refine ⟨by decide, by decide⟩

/-- C8 counterexample: a V004 trial does not leave the shared deck
template unchanged — `random.shuffle(deck)` permutes the caller's list in
place, so after a trial whose shuffle reverses a two-card template the
template's order is reversed. -/
theorem c8_counterexample_template_mutated :
    (simulate_gameV4 List.reverse [CardV4.other "A", CardV4.other "B"] 6 1).2
      ≠ [CardV4.other "A", CardV4.other "B"] := by
  decide
